import Mathlib

/-!
Shallow embedding of the Mynewt HAL flash access layer
(src/hw/hal/src/hal_flash.c) and proofs about its claims.

Modelling conventions:
- `uint32_t` values are natural numbers; wherever the C code performs
  32-bit arithmetic that can overflow, we reduce modulo `U32 = 2^32`.
- The external registry `hal_bsp_flash_dev` is modelled as a list of
  descriptors; `hal_bsp_flash_dev i = devs.get? i` (the registry contract
  requires `none` for the first id beyond the last configured device).
- The driver capability set is modelled functionally: the device's byte
  contents are a function `mem : Nat → Nat`; whether a driver read of
  `n` bytes at address `a` succeeds (returns rc 0) is `hff_read_ok a n`;
  the driver write / erase-sector / init primitives return their `int`
  result codes; `hff_sector_info` is total (the erase code asserts its
  success); `hff_is_empty` is the driver's optional is-empty capability.
- Functions that the claims observe for their side effects
  (`hal_flash_write`, `hal_flash_erase`, `hal_flash_init`) are
  instrumented to also return the trace of driver interactions
  (whether the driver write was invoked, which sector indices were
  queried, which sector starts were erased, which devices were
  initialized).  The `rc` component is exactly the C return value.
- The C `assert` used for write verification is modelled as a
  distinguished `fatal` outcome, distinct from every `int` return.
-/

def U32 : Nat := 4294967296

/-- A flash device descriptor together with its driver capability set
(`struct hal_flash` plus its `hf_itf` function table). -/
structure hal_flash where
  hf_base_addr : Nat
  hf_size : Nat
  hf_align : Nat
  hf_sector_cnt : Nat
  /-- result code of the driver's `hff_init` capability for this device -/
  hff_init : Int
  /-- device byte contents: the byte a driver read returns at an address -/
  mem : Nat → Nat
  /-- whether a driver read of `n` bytes at address `a` returns rc 0 -/
  hff_read_ok : Nat → Nat → Bool
  /-- driver write result code for (address, source bytes, length) -/
  hff_write : Nat → (Nat → Nat) → Nat → Int
  /-- driver erase-sector result code for a sector start address -/
  hff_erase_sector : Nat → Int
  /-- sector geometry: index ↦ (start, size); total, since the erase
  paths `assert` that `hff_sector_info` succeeds -/
  hff_sector_info : Nat → Nat × Nat
  /-- optional driver is-empty capability -/
  hff_is_empty : Option (Nat → Nat → Int)

/-- `hal_flash_check_addr`: bounds validation.  The sum
`hf_base_addr + hf_size` is computed in 32-bit arithmetic. -/
def hal_flash_check_addr (hf : hal_flash) (addr : Nat) : Int :=
  if addr < hf.hf_base_addr ∨ addr > (hf.hf_base_addr + hf.hf_size) % U32 then
    -1
  else
    0

/-- `hal_flash_align`: alignment lookup; 1 when the registry has no
device for the id. -/
def hal_flash_align (devs : List hal_flash) (flash_id : Nat) : Nat :=
  match devs[flash_id]? with
  | none => 1
  | some hf => hf.hf_align

/-- Loop of `hal_flash_init`: walks the registry, records `-1` if any
device's `hff_init` fails, and returns the aggregate rc together with
the list of logical ids whose init capability was invoked. -/
def hal_flash_init_go (devs : List hal_flash) (i : Nat) (rc : Int) :
    Int × List Nat :=
  match devs with
  | [] => (rc, [])
  | hf :: rest =>
    let rc' := if hf.hff_init ≠ 0 then -1 else rc
    let r := hal_flash_init_go rest (i + 1) rc'
    (r.1, i :: r.2)

/-- `hal_flash_init`: initialize every device the registry knows,
starting from id 0.  First component: the C return value; second:
the ids whose driver init was called. -/
def hal_flash_init (devs : List hal_flash) : Int × List Nat :=
  hal_flash_init_go devs 0 0

/-- Modelled from the spec: the build-time configuration option
`verify_buffer_size` (`MYNEWT_VAL(HAL_FLASH_VERIFY_BUF_SZ)`, the chunk
size for verification scans), which is defined outside this source
file; its value is irrelevant to the claims as long as it is positive. -/
def HAL_FLASH_VERIFY_BUF_SZ : Nat := 16

/-- Loop of `hal_flash_cmp`: compare the readback of
`[address + off, address + num_bytes)` with the source buffer bytes
`src (off), src (off+1), …`, one chunk of at most
`HAL_FLASH_VERIFY_BUF_SZ` bytes per iteration.  Returns the driver rc
(collapsed to -1) on a failed chunk read, -1 on a `memcmp` mismatch,
0 when every byte matched. -/
def hal_flash_cmp_go (hf : hal_flash) (address : Nat) (src : Nat → Nat)
    (num_bytes off : Nat) : Int :=
  if _h : off < num_bytes then
    let rem := num_bytes - off
    let chunk_sz :=
      if rem ≥ HAL_FLASH_VERIFY_BUF_SZ then HAL_FLASH_VERIFY_BUF_SZ else rem
    if hf.hff_read_ok (address + off) chunk_sz then
      if (List.range chunk_sz).all
          (fun k => hf.mem (address + off + k) == src (off + k)) then
        hal_flash_cmp_go hf address src num_bytes
          (off + HAL_FLASH_VERIFY_BUF_SZ)
      else
        -1
    else
      -1
  else
    0
termination_by num_bytes - off
decreasing_by
  have : 0 < HAL_FLASH_VERIFY_BUF_SZ := by decide
  omega

/-- `hal_flash_cmp`: verify that `num_bytes` bytes of flash at
`address` equal the source buffer. -/
def hal_flash_cmp (hf : hal_flash) (address : Nat) (src : Nat → Nat)
    (num_bytes : Nat) : Int :=
  hal_flash_cmp_go hf address src num_bytes 0

/-- Outcome of a write: either the C `int` return value, or the fatal
stop of the verification `assert`. -/
inductive WStatus where
  | ret (rc : Int)
  | fatal
deriving DecidableEq, Repr

/-- Instrumented result of `hal_flash_write`: its outcome and whether
the driver's `hff_write` capability was invoked. -/
structure WriteOut where
  status : WStatus
  driverCalled : Bool
deriving DecidableEq, Repr

/-- `hal_flash_write`, instrumented with whether the driver write was
invoked.  `verify` is the build-time option
`MYNEWT_VAL(HAL_FLASH_VERIFY_WRITES)`; when it is set and the driver
write succeeded, `assert(hal_flash_cmp(...) == 0)` is modelled as a
`fatal` outcome whenever the comparison is nonzero. -/
def hal_flash_write (verify : Bool) (devs : List hal_flash) (id : Nat)
    (address : Nat) (src : Nat → Nat) (num_bytes : Nat) : WriteOut :=
  match devs[id]? with
  | none => ⟨.ret (-1), false⟩
  | some hf =>
    if hal_flash_check_addr hf address ≠ 0 ∨
        hal_flash_check_addr hf ((address + num_bytes) % U32) ≠ 0 then
      ⟨.ret (-1), false⟩
    else
      let rc := hf.hff_write address src num_bytes
      if rc ≠ 0 then
        ⟨.ret rc, true⟩
      else if verify then
        if hal_flash_cmp hf address src num_bytes = 0 then
          ⟨.ret 0, true⟩
        else
          ⟨.fatal, true⟩
      else
        ⟨.ret 0, true⟩

/-- Instrumented result of `hal_flash_erase`: the C return value, the
sector indices whose geometry was queried (in query order), and the
sector start addresses successfully erased (in erase order). -/
structure EraseOut where
  rc : Int
  queried : List Nat
  erased : List Nat
deriving DecidableEq, Repr

/-- Sector loop of `hal_flash_erase`, from sector index `i` up:
query geometry, compute `end_area = start + size` in 32-bit
arithmetic, erase the sector when `[address, endv)` overlaps
`[start, end_area)`, abort with -1 on the first failed sector erase. -/
def hal_flash_erase_go (hf : hal_flash) (address endv : Nat) (i : Nat) :
    EraseOut :=
  if _h : i < hf.hf_sector_cnt then
    let start := (hf.hff_sector_info i).1
    let size := (hf.hff_sector_info i).2
    let end_area := (start + size) % U32
    if address < end_area ∧ endv > start then
      if hf.hff_erase_sector start ≠ 0 then
        ⟨-1, [i], []⟩
      else
        let r := hal_flash_erase_go hf address endv (i + 1)
        ⟨r.rc, i :: r.queried, start :: r.erased⟩
    else
      let r := hal_flash_erase_go hf address endv (i + 1)
      ⟨r.rc, i :: r.queried, r.erased⟩
  else
    ⟨0, [], []⟩
termination_by hf.hf_sector_cnt - i

/-- `hal_flash_erase`: resolve the device, validate both ends of the
range, reject when `end = address + num_bytes` (32-bit) satisfies
`end <= address` (the wrap-around check), then run the sector loop. -/
def hal_flash_erase (devs : List hal_flash) (id : Nat)
    (address num_bytes : Nat) : EraseOut :=
  match devs[id]? with
  | none => ⟨-1, [], []⟩
  | some hf =>
    if hal_flash_check_addr hf address ≠ 0 ∨
        hal_flash_check_addr hf ((address + num_bytes) % U32) ≠ 0 then
      ⟨-1, [], []⟩
    else
      let endv := (address + num_bytes) % U32
      if endv ≤ address then
        ⟨-1, [], []⟩
      else
        hal_flash_erase_go hf address endv 0

/-- `hal_flash_is_setto`: chunked constant-fill scan.  Faithful to the
source: `address` is NOT advanced between chunks while `num_bytes` is
decremented by the chunk size. -/
def hal_flash_is_setto (hf : hal_flash) (address num_bytes val : Nat) :
    Int :=
  if _h : num_bytes ≠ 0 then
    let blksz := if 32 > num_bytes then num_bytes else 32
    if hf.hff_read_ok address blksz then
      if (List.range blksz).all (fun i => hf.mem (address + i) == val) then
        hal_flash_is_setto hf address (num_bytes - blksz) val
      else
        0
    else
      -1
  else
    1
termination_by num_bytes
decreasing_by split <;> omega

/-- `hal_flash_is_ones`: the constant-fill predicate specialized to
0xff. -/
def hal_flash_is_ones (hf : hal_flash) (address num_bytes : Nat) : Int :=
  hal_flash_is_setto hf address num_bytes 0xff

/-- `hal_flash_is_zeroes`: the constant-fill predicate specialized to
0. -/
def hal_flash_is_zeroes (hf : hal_flash) (address num_bytes : Nat) : Int :=
  hal_flash_is_setto hf address num_bytes 0

/-- `hal_flash_isempty`: validate, then use the driver's is-empty
capability when present, else fall back to `hal_flash_is_ones`. -/
def hal_flash_isempty (devs : List hal_flash) (id : Nat)
    (address num_bytes : Nat) : Int :=
  match devs[id]? with
  | none => -1
  | some hf =>
    if hal_flash_check_addr hf address ≠ 0 ∨
        hal_flash_check_addr hf ((address + num_bytes) % U32) ≠ 0 then
      -1
    else
      match hf.hff_is_empty with
      | some f => f address num_bytes
      | none => hal_flash_is_ones hf address num_bytes

/-- The overlap test of the erase loop as a Boolean on a sector index:
`address < end_area && end > start` with `end_area = start + size`
taken in 32-bit arithmetic. -/
def eraseOverlap (hf : hal_flash) (address endv i : Nat) : Bool :=
  decide (address < ((hf.hff_sector_info i).1 + (hf.hff_sector_info i).2) % U32
    ∧ endv > (hf.hff_sector_info i).1)

/-- The example device of the spec: base 0x8000, size 0x1000, four
0x400-byte sectors at 0x8000 / 0x8400 / 0x8800 / 0x8C00; all driver
primitives succeed and the device reads as all-0xff. -/
def exDev : hal_flash :=
  { hf_base_addr := 0x8000
    hf_size := 0x1000
    hf_align := 1
    hf_sector_cnt := 4
    hff_init := 0
    mem := fun _ => 0xff
    hff_read_ok := fun _ _ => true
    hff_write := fun _ _ _ => 0
    hff_erase_sector := fun _ => 0
    hff_sector_info := fun i => (0x8000 + 0x400 * i, 0x400)
    hff_is_empty := none }

/-- A descriptor whose `base + size` wraps in 32-bit arithmetic:
base 1, size 2^32 - 1, so `base + size ≡ 0 (mod 2^32)`. -/
def wrapDev : hal_flash :=
  { exDev with hf_base_addr := 1, hf_size := U32 - 1 }

/-- The example device with its contents changed so that the first 32
bytes (one scan chunk) are 0xff but byte 32 is 0. -/
def bugDev : hal_flash :=
  { exDev with mem := fun a => if a < 32 then 0xff else 0 }

/-- The example device whose driver fails to erase the sector at
0x8400 and erases every other sector successfully. -/
def failDev : hal_flash :=
  { exDev with hff_erase_sector := fun a => if a == 0x8400 then -1 else 0 }

/-- The example device with a failing driver init. -/
def badInitDev : hal_flash :=
  { exDev with hff_init := -1 }

/-- The example device whose contents read back as all zeroes. -/
def zeroDev : hal_flash := { exDev with mem := fun _ => 0 }

/-- Claim C1 counterexample: for the descriptor with base 1 and
size 2^32 - 1 (so base + size wraps to 0 in 32-bit arithmetic), the
address exactly `base` FAILS bounds validation, refuting the claim
that the boundary value exactly `D.base` always succeeds. -/
theorem c1_counterexample :
    wrapDev.hf_base_addr = 1 ∧
    hal_flash_check_addr wrapDev wrapDev.hf_base_addr = -1 := by
  exact ⟨rfl, by decide⟩

/-- Claim C1 (amended): for every descriptor and address,
`hal_flash_check_addr` succeeds iff
`base ≤ addr ≤ (base + size) % 2^32`; and whenever `1 ≤ base` and
`base + size` does not wrap past 2^32, the boundary values exactly
`base` and exactly `base + size` succeed while `base - 1` and
`(base + size + 1) % 2^32` fail. -/
theorem c1_check_addr_amended (hf : hal_flash) (addr : Nat) :
    (hal_flash_check_addr hf addr = 0 ↔
      hf.hf_base_addr ≤ addr ∧
        addr ≤ (hf.hf_base_addr + hf.hf_size) % U32) ∧
    (1 ≤ hf.hf_base_addr → hf.hf_base_addr + hf.hf_size < U32 →
      hal_flash_check_addr hf hf.hf_base_addr = 0 ∧
      hal_flash_check_addr hf (hf.hf_base_addr + hf.hf_size) = 0 ∧
      hal_flash_check_addr hf (hf.hf_base_addr - 1) = -1 ∧
      hal_flash_check_addr hf ((hf.hf_base_addr + hf.hf_size + 1) % U32) = -1) := by
  constructor
  · unfold hal_flash_check_addr
    split
    · rename_i h
      constructor
      · intro h0; exact absurd h0 (by decide)
      · intro hc; omega
    · rename_i h
      constructor
      · intro _; constructor <;> omega
      · intro _; rfl
  · intro hb hnw
    have hmod : (hf.hf_base_addr + hf.hf_size) % U32 =
        hf.hf_base_addr + hf.hf_size := Nat.mod_eq_of_lt hnw
    have hU : U32 = 4294967296 := rfl
    refine ⟨?_, ?_, ?_, ?_⟩ <;> unfold hal_flash_check_addr <;> rw [hmod] <;>
      split <;> first
        | rfl
        | (rename_i h; exfalso; revert h)
    · intro h; omega
    · intro h; omega
    · intro h
      apply h
      left
      omega
    · intro h
      apply h
      rcases Nat.lt_or_ge (hf.hf_base_addr + hf.hf_size + 1) U32 with hlt | hge
      · right
        rw [Nat.mod_eq_of_lt hlt]
        omega
      · left
        have : hf.hf_base_addr + hf.hf_size + 1 = U32 := by omega
        rw [this]
        simp
        omega

/-- Claim C1 witness: the boundary statements of the amended claim,
instantiated at the example device (base 0x8000, size 0x1000). -/
theorem c1_witness :
    hal_flash_check_addr exDev exDev.hf_base_addr = 0 ∧
    hal_flash_check_addr exDev (exDev.hf_base_addr + exDev.hf_size) = 0 ∧
    hal_flash_check_addr exDev (exDev.hf_base_addr - 1) = -1 ∧
    hal_flash_check_addr exDev ((exDev.hf_base_addr + exDev.hf_size + 1) % U32) = -1 :=
  (c1_check_addr_amended exDev 0).2 (by decide) (by decide)

/-- Claim C10: `hal_flash_align` never fails: it returns the descriptor's
alignment when the registry knows the id and the default alignment 1
when the registry returns no descriptor. -/
theorem c10_align_total (devs : List hal_flash) (flash_id : Nat) :
    (devs[flash_id]? = none → hal_flash_align devs flash_id = 1) ∧
    (∀ hf, devs[flash_id]? = some hf →
      hal_flash_align devs flash_id = hf.hf_align) := by
  constructor
  · intro h
    simp [hal_flash_align, h]
  · intro hf h
    simp [hal_flash_align, h]

/-- Claim C10 witness: an empty registry yields alignment 1 at id 0, and a
registry holding the example device yields its alignment at id 0. -/
theorem c10_align_witness :
    hal_flash_align [] 0 = 1 ∧ hal_flash_align [exDev] 0 = exDev.hf_align :=
  ⟨(c10_align_total [] 0).1 rfl, (c10_align_total [exDev] 0).2 exDev rfl⟩

/-- Closed form of the init loop: it calls the init capability of every
remaining device (ids `i, i+1, …`) and returns -1 iff the carried rc
was -1 already or some remaining device's init failed. -/
theorem hal_flash_init_go_spec (devs : List hal_flash) :
    ∀ i rc, hal_flash_init_go devs i rc =
      ((if ∃ hf ∈ devs, hf.hff_init ≠ 0 then -1 else rc),
        List.range' i devs.length) := by
  induction devs with
  | nil => intro i rc; simp [hal_flash_init_go]
  | cons hf rest ih =>
    intro i rc
    simp only [hal_flash_init_go, ih, List.length_cons, List.range'_succ,
      List.mem_cons, Prod.mk.injEq, and_true]
    by_cases h0 : hf.hff_init ≠ 0
    · simp [h0]
    · simp only [h0, if_false]
      by_cases hrest : ∃ x ∈ rest, x.hff_init ≠ 0
      · simp [hrest, h0]
      · simp [hrest, h0]

/-- Claim C7: `hal_flash_init` iterates ids from 0 until the registry is
exhausted, invokes every device's driver init capability (even after
an earlier failure), and returns -1 iff at least one device's init
failed, 0 when all succeeded or no devices exist. -/
theorem c7_init_all (devs : List hal_flash) :
    (hal_flash_init devs).2 = List.range devs.length ∧
    ((hal_flash_init devs).1 = -1 ↔ ∃ hf ∈ devs, hf.hff_init ≠ 0) ∧
    ((hal_flash_init devs).1 = 0 ↔ ∀ hf ∈ devs, hf.hff_init = 0) := by
  unfold hal_flash_init
  rw [hal_flash_init_go_spec devs 0 0]
  refine ⟨by rw [List.range_eq_range'], ?_, ?_⟩
  · by_cases h : ∃ hf ∈ devs, hf.hff_init ≠ 0
    · rw [if_pos h]
      exact ⟨fun _ => h, fun _ => rfl⟩
    · rw [if_neg h]
      constructor
      · intro h0
        simp at h0
      · intro hx
        exact absurd hx h
  · by_cases h : ∃ hf ∈ devs, hf.hff_init ≠ 0
    · rw [if_pos h]
      constructor
      · intro h0
        simp at h0
      · intro hall
        obtain ⟨hf, hmem, hne⟩ := h
        exact absurd (hall hf hmem) hne
    · rw [if_neg h]
      push_neg at h
      exact ⟨fun _ => h, fun _ => rfl⟩

/-- Claim C7 witness: the spec's three-device scenario, where the second
device's init fails: all three inits are attempted and the aggregate
result is failure. -/
theorem c7_init_witness :
    (hal_flash_init [exDev, badInitDev, exDev]).2 = [0, 1, 2] ∧
    (hal_flash_init [exDev, badInitDev, exDev]).1 = -1 := by
  have h := c7_init_all [exDev, badInitDev, exDev]
  refine ⟨h.1.trans (by decide), ?_⟩
  exact h.2.1.mpr ⟨badInitDev, by simp, by decide⟩

/-- Claim C5: a write whose id is unknown, or whose start or 32-bit end
address fails bounds validation, returns -1 and never invokes the
driver's write capability. -/
theorem c5_write_no_driver (verify : Bool) (devs : List hal_flash)
    (id address num_bytes : Nat) (src : Nat → Nat)
    (h : devs[id]? = none ∨
      ∃ hf, devs[id]? = some hf ∧
        (hal_flash_check_addr hf address ≠ 0 ∨
          hal_flash_check_addr hf ((address + num_bytes) % U32) ≠ 0)) :
    hal_flash_write verify devs id address src num_bytes =
      ⟨.ret (-1), false⟩ := by
  rcases h with h | ⟨hf, hdev, hc⟩
  · simp [hal_flash_write, h]
  · simp [hal_flash_write, hdev, hc]

/-- Claim C5 witness: on the example device (base 0x8000, size 0x1000), a
write at 0x8800 of 0x900 bytes has end 0x9100 > base + size, so it
fails out of range with the driver never called. -/
theorem c5_write_witness :
    hal_flash_write false [exDev] 0 0x8800 (fun _ => 0) 0x900 =
      ⟨.ret (-1), false⟩ :=
  c5_write_no_driver false [exDev] 0 0x8800 0x900 (fun _ => 0)
    (Or.inr ⟨exDev, rfl, Or.inr (by decide)⟩)

/-- Claim C8: a validated isempty request returns the driver's is-empty
capability result when the driver provides one, and exactly
`hal_flash_is_ones` over the requested range otherwise. -/
theorem c8_isempty_dispatch (devs : List hal_flash)
    (id address num_bytes : Nat) (hf : hal_flash)
    (hdev : devs[id]? = some hf)
    (hc1 : hal_flash_check_addr hf address = 0)
    (hc2 : hal_flash_check_addr hf ((address + num_bytes) % U32) = 0) :
    (∀ f, hf.hff_is_empty = some f →
      hal_flash_isempty devs id address num_bytes = f address num_bytes) ∧
    (hf.hff_is_empty = none →
      hal_flash_isempty devs id address num_bytes =
        hal_flash_is_ones hf address num_bytes) := by
  constructor
  · intro f hcap
    simp [hal_flash_isempty, hdev, hc1, hc2, hcap]
  · intro hcap
    simp [hal_flash_isempty, hdev, hc1, hc2, hcap]

/-- Claim C8 witness: the example device has no driver is-empty capability,
so a validated isempty request falls back to `hal_flash_is_ones`. -/
theorem c8_isempty_witness :
    hal_flash_isempty [exDev] 0 0x8000 0x100 =
      hal_flash_is_ones exDev 0x8000 0x100 :=
  (c8_isempty_dispatch [exDev] 0 0x8000 0x100 exDev rfl (by decide)
    (by decide)).2 rfl

/-- Closed form of the erase sector loop when every qualifying sector
erase succeeds: starting from index `i`, the loop queries the
remaining indices in ascending order, erases exactly the overlapping
sectors (each once, at its start address), and returns 0. -/
theorem hal_flash_erase_go_ok (hf : hal_flash) (address endv : Nat)
    (hok : ∀ i, i < hf.hf_sector_cnt → eraseOverlap hf address endv i = true →
      hf.hff_erase_sector (hf.hff_sector_info i).1 = 0) :
    ∀ n i, hf.hf_sector_cnt - i = n →
      hal_flash_erase_go hf address endv i =
        ⟨0, List.range' i n,
          ((List.range' i n).filter (eraseOverlap hf address endv)).map
            (fun j => (hf.hff_sector_info j).1)⟩ := by
  intro n
  induction n with
  | zero =>
    intro i hi
    rw [hal_flash_erase_go]
    have hge : ¬ i < hf.hf_sector_cnt := by omega
    simp [hge]
  | succ n ih =>
    intro i hi
    have hlt : i < hf.hf_sector_cnt := by omega
    rw [hal_flash_erase_go]
    have hrec := ih (i + 1) (by omega)
    by_cases hov : address <
        ((hf.hff_sector_info i).1 + (hf.hff_sector_info i).2) % U32 ∧
        endv > (hf.hff_sector_info i).1
    · have hovb : eraseOverlap hf address endv i = true := by
        unfold eraseOverlap
        exact decide_eq_true hov
      have herase := hok i hlt hovb
      simp only [dif_pos hlt, if_pos hov, herase, ne_eq,
        not_true_eq_false, if_false, hrec, List.range'_succ,
        List.filter_cons, hovb, List.map_cons]
      simp [herase]
    · have hovb : eraseOverlap hf address endv i = false := by
        unfold eraseOverlap
        exact decide_eq_false hov
      simp only [dif_pos hlt, if_neg hov, hrec, List.range'_succ,
        List.filter_cons, hovb, List.map_cons]
      simp

/-- Claim C2: a valid, non-wrapping region erase request on a known
device visits sector indices 0 to sector_count-1 in ascending order,
querying each sector's geometry, and (if every qualifying driver
erase succeeds) erases exactly the sectors whose
`[start, start+size)` area overlaps `[address, address+num_bytes)`,
each once, via the driver erase-sector capability at the sector's
start. -/
theorem c2_erase_plan (devs : List hal_flash) (id : Nat) (hf : hal_flash)
    (address num_bytes : Nat)
    (hdev : devs[id]? = some hf)
    (hc1 : hal_flash_check_addr hf address = 0)
    (hc2 : hal_flash_check_addr hf ((address + num_bytes) % U32) = 0)
    (hwrap : address + num_bytes < U32)
    (hpos : 0 < num_bytes)
    (hok : ∀ i, i < hf.hf_sector_cnt →
      eraseOverlap hf address (address + num_bytes) i = true →
      hf.hff_erase_sector (hf.hff_sector_info i).1 = 0) :
    hal_flash_erase devs id address num_bytes =
      ⟨0, List.range hf.hf_sector_cnt,
        ((List.range hf.hf_sector_cnt).filter
          (eraseOverlap hf address (address + num_bytes))).map
          (fun j => (hf.hff_sector_info j).1)⟩ := by
  have hmod : (address + num_bytes) % U32 = address + num_bytes :=
    Nat.mod_eq_of_lt hwrap
  rw [hmod] at hc2
  simp only [hal_flash_erase, hdev, hmod, ne_eq]
  rw [if_neg (by simp [hc1, hc2]), if_neg (by omega)]
  rw [List.range_eq_range']
  exact hal_flash_erase_go_ok hf address (address + num_bytes) hok
    hf.hf_sector_cnt 0 (by omega)

/-- Claim C2 witness: on the spec's example device (base 0x8000, size
0x1000, four 0x400-byte sectors), `erase(id, 0x8300, 0x200)` queries
sectors 0..3 and erases exactly the sectors starting at 0x8000 and
0x8400. -/
theorem c2_erase_witness :
    hal_flash_erase [exDev] 0 0x8300 0x200 =
      ⟨0, [0, 1, 2, 3], [0x8000, 0x8400]⟩ := by
  have h := c2_erase_plan [exDev] 0 exDev 0x8300 0x200 rfl (by decide)
    (by decide) (by decide) (by decide) (by decide)
  exact h.trans (by decide)

/-- Whenever the erase sector loop returns -1 it has queried at least
one sector. -/
theorem hal_flash_erase_go_rc_queried (hf : hal_flash)
    (address endv i : Nat) :
    (hal_flash_erase_go hf address endv i).rc = -1 →
    (hal_flash_erase_go hf address endv i).queried ≠ [] := by
  rw [hal_flash_erase_go]
  by_cases hlt : i < hf.hf_sector_cnt
  · simp only [dif_pos hlt]
    by_cases hov : address <
        ((hf.hff_sector_info i).1 + (hf.hff_sector_info i).2) % U32 ∧
        endv > (hf.hff_sector_info i).1
    · by_cases hfail : hf.hff_erase_sector (hf.hff_sector_info i).1 ≠ 0
      · simp [hov, hfail]
      · simp [hov, hfail]
    · simp [hov]
  · simp only [dif_neg hlt]
    intro h
    exact absurd h (by decide)

/-- Claim C3 counterexample: on the example device, the request
`erase(id, 0x8000, 0)` passes both bounds checks and its sum
0x8000 + 0 does not wrap past 2^32, yet `hal_flash_erase` returns the
failure -1 before querying any sector (the `end <= address` check also
fires for zero-length requests), refuting 'overflow failure iff the
sum wraps'. -/
theorem c3_counterexample :
    hal_flash_check_addr exDev 0x8000 = 0 ∧
    hal_flash_check_addr exDev ((0x8000 + 0) % U32) = 0 ∧
    0x8000 + 0 < U32 ∧
    hal_flash_erase [exDev] 0 0x8000 0 = ⟨-1, [], []⟩ :=
  ⟨by decide, by decide, by decide, by decide⟩

/-- Claim C3 (amended): for an erase request on a known device whose
start and 32-bit end address both pass bounds validation,
`hal_flash_erase` returns the overflow failure -1 with no sector
queried or erased iff `address + num_bytes` wraps past 2^32 OR
`num_bytes` is zero; any such request with positive length whose sum
does not wrap proceeds to the sector scan. -/
theorem c3_erase_wrap_amended (devs : List hal_flash) (id : Nat)
    (hf : hal_flash) (address num_bytes : Nat)
    (hdev : devs[id]? = some hf)
    (ha : address < U32) (hn : num_bytes < U32)
    (hc1 : hal_flash_check_addr hf address = 0)
    (hc2 : hal_flash_check_addr hf ((address + num_bytes) % U32) = 0) :
    (hal_flash_erase devs id address num_bytes = ⟨-1, [], []⟩ ↔
      U32 ≤ address + num_bytes ∨ num_bytes = 0) ∧
    (address + num_bytes < U32 → 0 < num_bytes →
      hal_flash_erase devs id address num_bytes =
        hal_flash_erase_go hf address (address + num_bytes) 0) := by
  have hifc : ¬ (hal_flash_check_addr hf address ≠ 0 ∨
      hal_flash_check_addr hf ((address + num_bytes) % U32) ≠ 0) := by
    simp [hc1, hc2]
  have hproceed : address + num_bytes < U32 → 0 < num_bytes →
      hal_flash_erase devs id address num_bytes =
        hal_flash_erase_go hf address (address + num_bytes) 0 := by
    intro hlt hpos
    have hmod : (address + num_bytes) % U32 = address + num_bytes :=
      Nat.mod_eq_of_lt hlt
    have hnle : ¬ (address + num_bytes ≤ address) := by omega
    simp only [hal_flash_erase, hdev]
    rw [if_neg hifc]
    simp only [hmod]
    rw [if_neg hnle]
  refine ⟨?_, hproceed⟩
  constructor
  · intro heq
    by_contra hcon
    push_neg at hcon
    obtain ⟨hw, hz⟩ := hcon
    rw [hproceed (by omega) (by omega)] at heq
    have h1 : (hal_flash_erase_go hf address (address + num_bytes) 0).rc
        = -1 := by rw [heq]
    have h2 := hal_flash_erase_go_rc_queried hf address (address + num_bytes)
      0 h1
    rw [heq] at h2
    exact h2 rfl
  · intro hcase
    have hle : (address + num_bytes) % U32 ≤ address := by
      rcases hcase with hw | hz
      · have : (address + num_bytes) % U32 = address + num_bytes - U32 := by
          rw [Nat.mod_eq_sub_mod hw, Nat.mod_eq_of_lt (by omega)]
        omega
      · subst hz
        rw [Nat.add_zero, Nat.mod_eq_of_lt ha]
    simp only [hal_flash_erase, hdev]
    rw [if_neg hifc, if_pos hle]

/-- Claim C3 witness: a positive-length, non-wrapping validated
request (0x8300, 0x200 on the example device) proceeds to the sector
scan instead of returning the overflow failure. -/
theorem c3_erase_wrap_witness :
    hal_flash_erase [exDev] 0 0x8300 0x200 =
      hal_flash_erase_go exDev 0x8300 0x8500 0 :=
  (c3_erase_wrap_amended [exDev] 0 exDev 0x8300 0x200 rfl (by decide)
    (by decide) (by decide) (by decide)).2 (by decide) (by decide)

/-- Closed form of the erase sector loop when the first qualifying
failing sector is index `j`: the loop queries indices up to and
including `j`, erases exactly the qualifying sectors before `j`, and
returns -1. -/
theorem hal_flash_erase_go_fail (hf : hal_flash) (address endv j : Nat)
    (hj : j < hf.hf_sector_cnt)
    (hovj : eraseOverlap hf address endv j = true)
    (hfail : hf.hff_erase_sector (hf.hff_sector_info j).1 ≠ 0)
    (hok : ∀ i, i < j → eraseOverlap hf address endv i = true →
      hf.hff_erase_sector (hf.hff_sector_info i).1 = 0) :
    ∀ n i, j - i = n → i ≤ j →
      hal_flash_erase_go hf address endv i =
        ⟨-1, List.range' i (j + 1 - i),
          ((List.range' i (j - i)).filter (eraseOverlap hf address endv)).map
            (fun k => (hf.hff_sector_info k).1)⟩ := by
  intro n
  induction n with
  | zero =>
    intro i hi hle
    have hij : i = j := by omega
    subst hij
    have hov : address <
        ((hf.hff_sector_info i).1 + (hf.hff_sector_info i).2) % U32 ∧
        endv > (hf.hff_sector_info i).1 := of_decide_eq_true hovj
    rw [hal_flash_erase_go]
    simp only [dif_pos hj, if_pos hov, if_pos hfail]
    simp
  | succ n ih =>
    intro i hi hle
    have hlt : i < j := by omega
    have hicnt : i < hf.hf_sector_cnt := by omega
    have hrec := ih (i + 1) (by omega) (by omega)
    have e1 : j + 1 - i = (j + 1 - (i + 1)) + 1 := by omega
    have e2 : j - i = (j - (i + 1)) + 1 := by omega
    rw [hal_flash_erase_go]
    by_cases hov : address <
        ((hf.hff_sector_info i).1 + (hf.hff_sector_info i).2) % U32 ∧
        endv > (hf.hff_sector_info i).1
    · have hovb : eraseOverlap hf address endv i = true := by
        unfold eraseOverlap
        exact decide_eq_true hov
      have herase := hok i hlt hovb
      simp only [dif_pos hicnt, if_pos hov, herase, ne_eq,
        not_true_eq_false, if_false, hrec, e1, e2, List.range'_succ,
        List.filter_cons, hovb, List.map_cons]
      simp [herase]
    · have hovb : eraseOverlap hf address endv i = false := by
        unfold eraseOverlap
        exact decide_eq_false hov
      simp only [dif_pos hicnt, if_neg hov, hrec, e1, e2,
        List.range'_succ, List.filter_cons, hovb, List.map_cons]
      simp

/-- Claim C6: if, during the sector scan of a valid erase request, the
driver erase-sector call fails at the first qualifying sector `j`
(every earlier qualifying sector having erased successfully), the
operation returns -1 immediately: only sectors 0..j are queried, no
later sector is queried or erased, and the qualifying sectors before
`j` remain erased (no rollback). -/
theorem c6_erase_abort (devs : List hal_flash) (id : Nat) (hf : hal_flash)
    (address num_bytes j : Nat)
    (hdev : devs[id]? = some hf)
    (hc1 : hal_flash_check_addr hf address = 0)
    (hc2 : hal_flash_check_addr hf ((address + num_bytes) % U32) = 0)
    (hwrap : address + num_bytes < U32)
    (hpos : 0 < num_bytes)
    (hj : j < hf.hf_sector_cnt)
    (hovj : eraseOverlap hf address (address + num_bytes) j = true)
    (hfail : hf.hff_erase_sector (hf.hff_sector_info j).1 ≠ 0)
    (hok : ∀ i, i < j → eraseOverlap hf address (address + num_bytes) i = true →
      hf.hff_erase_sector (hf.hff_sector_info i).1 = 0) :
    hal_flash_erase devs id address num_bytes =
      ⟨-1, List.range (j + 1),
        ((List.range j).filter (eraseOverlap hf address (address + num_bytes))).map
          (fun k => (hf.hff_sector_info k).1)⟩ := by
  have hifc : ¬ (hal_flash_check_addr hf address ≠ 0 ∨
      hal_flash_check_addr hf ((address + num_bytes) % U32) ≠ 0) := by
    simp [hc1, hc2]
  have hnle : ¬ ((address + num_bytes) % U32 ≤ address) := by
    rw [Nat.mod_eq_of_lt hwrap]
    omega
  simp only [hal_flash_erase, hdev]
  rw [if_neg hifc, if_neg hnle, Nat.mod_eq_of_lt hwrap]
  have h := hal_flash_erase_go_fail hf address (address + num_bytes) j hj
    hovj hfail hok j 0 (by omega) (by omega)
  rw [h]
  rw [List.range_eq_range', List.range_eq_range']
  simp

/-- Claim C6 witness: on the example device whose driver fails to
erase the sector at 0x8400, `erase(id, 0x8300, 0x200)` returns -1
having queried only sectors 0 and 1, with the sector at 0x8000
already erased and left erased. -/
theorem c6_erase_abort_witness :
    hal_flash_erase [failDev] 0 0x8300 0x200 = ⟨-1, [0, 1], [0x8000]⟩ := by
  have h := c6_erase_abort [failDev] 0 failDev 0x8300 0x200 1 rfl
    (by decide) (by decide) (by decide) (by decide) (by decide) (by decide)
    (by decide) (by decide)
  exact h.trans (by decide)

/-- The constant-fill scan never looks past the first 32-byte chunk:
if the device reads successfully and its FIRST 32 bytes at `address`
all equal `val`, the scan returns 1 for EVERY length, because the
source never advances `address` between chunks. -/
theorem hal_flash_is_setto_stuck (hf : hal_flash) (address val : Nat)
    (hr : ∀ a n, hf.hff_read_ok a n = true)
    (hm : ∀ i, i < 32 → hf.mem (address + i) = val) :
    ∀ n, hal_flash_is_setto hf address n val = 1 := by
  intro n
  induction n using Nat.strong_induction_on with
  | _ n ih =>
    rw [hal_flash_is_setto]
    by_cases h0 : n ≠ 0
    · simp only [dif_pos h0]
      have hble : (if 32 > n then n else 32) ≤ 32 := by split <;> omega
      have hall : (List.range (if 32 > n then n else 32)).all
          (fun i => hf.mem (address + i) == val) = true := by
        rw [List.all_eq_true]
        intro x hx
        rw [List.mem_range] at hx
        have hx32 : x < 32 := by omega
        simp [hm x hx32]
      simp only [hr, if_true, hall]
      exact ih _ (by split <;> omega)
    · simp only [dif_neg h0]

/-- Claim C4 (code bug): `hal_flash_is_setto` on a device whose bytes
0..31 are 0xff but whose byte 32 is 0 returns 1 ("all 33 bytes equal
0xff") for the range [0, 33), even though byte 32 differs — the loop
decrements `num_bytes` by the chunk size but never advances `address`,
so it re-reads the first chunk instead of scanning the whole region. -/
theorem c4_is_setto_stuck_bug :
    hal_flash_is_setto bugDev 0 33 0xff = 1 ∧ bugDev.mem 32 ≠ 0xff := by
  constructor
  · exact hal_flash_is_setto_stuck bugDev 0 0xff (fun _ _ => rfl)
      (fun i hi => by
        show (if 0 + i < 32 then 0xff else 0) = 0xff
        rw [if_pos (by omega)]) 33
  · decide

/-- If the verification comparison loop returns 0 from offset `off`,
then every byte of the range from `off` to the end matches the source
buffer (regardless of which chunk reads could have failed). -/
theorem hal_flash_cmp_go_zero (hf : hal_flash) (address : Nat)
    (src : Nat → Nat) (num_bytes : Nat) :
    ∀ fuel off, num_bytes - off = fuel →
      hal_flash_cmp_go hf address src num_bytes off = 0 →
      ∀ k, off ≤ k → k < num_bytes → hf.mem (address + k) = src k := by
  intro fuel
  induction fuel using Nat.strong_induction_on with
  | _ fuel ih =>
    intro off hfuel hzero k hk1 hk2
    have hoff : off < num_bytes := by omega
    rw [hal_flash_cmp_go, dif_pos hoff] at hzero
    simp only [] at hzero
    rcases hread : hf.hff_read_ok (address + off)
        (if num_bytes - off ≥ HAL_FLASH_VERIFY_BUF_SZ then
          HAL_FLASH_VERIFY_BUF_SZ else num_bytes - off) with _ | _
    · rw [hread] at hzero
      simp at hzero
    · rw [hread, if_pos rfl] at hzero
      rcases hall : (List.range
          (if num_bytes - off ≥ HAL_FLASH_VERIFY_BUF_SZ then
            HAL_FLASH_VERIFY_BUF_SZ else num_bytes - off)).all
          (fun j => hf.mem (address + off + j) == src (off + j)) with _ | _
      · rw [hall] at hzero
        simp at hzero
      · rw [hall, if_pos rfl] at hzero
        by_cases hkchunk : k < off +
            (if num_bytes - off ≥ HAL_FLASH_VERIFY_BUF_SZ then
              HAL_FLASH_VERIFY_BUF_SZ else num_bytes - off)
        · rw [List.all_eq_true] at hall
          have hmem : k - off ∈ List.range
              (if num_bytes - off ≥ HAL_FLASH_VERIFY_BUF_SZ then
                HAL_FLASH_VERIFY_BUF_SZ else num_bytes - off) := by
            rw [List.mem_range]
            omega
          have h := hall (k - off) hmem
          rw [beq_iff_eq] at h
          have e1 : address + off + (k - off) = address + k := by omega
          have e2 : off + (k - off) = k := by omega
          rwa [e1, e2] at h
        · have hchunk16 : (if num_bytes - off ≥ HAL_FLASH_VERIFY_BUF_SZ then
              HAL_FLASH_VERIFY_BUF_SZ else num_bytes - off) =
              HAL_FLASH_VERIFY_BUF_SZ := by
            rcases Nat.lt_or_ge (num_bytes - off) HAL_FLASH_VERIFY_BUF_SZ with
              hl | hg
            · exfalso
              rw [if_neg (by omega)] at hkchunk
              omega
            · rw [if_pos hg]
          rw [hchunk16] at hkchunk
          have hBpos : 0 < HAL_FLASH_VERIFY_BUF_SZ := by decide
          exact ih (num_bytes - (off + HAL_FLASH_VERIFY_BUF_SZ)) (by omega)
            (off + HAL_FLASH_VERIFY_BUF_SZ) rfl hzero k (by omega) hk2

/-- Claim C9: for a validated write whose driver write succeeds: with
verification enabled, any byte-for-byte mismatch between the readback
and the source makes the outcome the fatal assertion (not an error
return), and the write returns success only if the readback matched;
with verification disabled, the outcome is plain success — no
verification failure is raised or returned. -/
theorem c9_write_verify (verify : Bool) (devs : List hal_flash)
    (id address num_bytes : Nat) (src : Nat → Nat) (hf : hal_flash)
    (hdev : devs[id]? = some hf)
    (hc1 : hal_flash_check_addr hf address = 0)
    (hc2 : hal_flash_check_addr hf ((address + num_bytes) % U32) = 0)
    (hw : hf.hff_write address src num_bytes = 0) :
    ((verify = true →
      (∃ k, k < num_bytes ∧ hf.mem (address + k) ≠ src k) →
      hal_flash_write verify devs id address src num_bytes =
        ⟨.fatal, true⟩) ∧
    (verify = true →
      (hal_flash_write verify devs id address src num_bytes).status =
        .ret 0 →
      ∀ k, k < num_bytes → hf.mem (address + k) = src k) ∧
    (verify = false →
      hal_flash_write verify devs id address src num_bytes =
        ⟨.ret 0, true⟩)) := by
  have hifc : ¬ (hal_flash_check_addr hf address ≠ 0 ∨
      hal_flash_check_addr hf ((address + num_bytes) % U32) ≠ 0) := by
    simp [hc1, hc2]
  have heq : hal_flash_write verify devs id address src num_bytes =
      (if verify then
        (if hal_flash_cmp hf address src num_bytes = 0 then
          ⟨.ret 0, true⟩
        else
          ⟨.fatal, true⟩)
      else
        ⟨.ret 0, true⟩) := by
    simp only [hal_flash_write, hdev]
    rw [if_neg hifc]
    simp only [hw, ne_eq, not_true_eq_false, if_false]
  refine ⟨?_, ?_, ?_⟩
  · intro hv hmis
    obtain ⟨k, hk, hne⟩ := hmis
    subst hv
    rw [heq, if_pos rfl]
    have hcne : hal_flash_cmp hf address src num_bytes ≠ 0 := by
      intro h0
      exact hne (hal_flash_cmp_go_zero hf address src num_bytes
        (num_bytes - 0) 0 rfl h0 k (Nat.zero_le k) hk)
    rw [if_neg hcne]
  · intro hv hst k hk
    subst hv
    rw [heq, if_pos rfl] at hst
    by_cases hc : hal_flash_cmp hf address src num_bytes = 0
    · exact hal_flash_cmp_go_zero hf address src num_bytes
        (num_bytes - 0) 0 rfl hc k (Nat.zero_le k) hk
    · rw [if_neg hc] at hst
      exact absurd hst (by decide)
  · intro hv
    subst hv
    rw [heq]
    simp

/-- Claim C9 witness: with verification enabled, writing 16 bytes of
0xff to the device that reads back all zeroes ends in the fatal
assertion, with the driver write having been invoked. -/
theorem c9_write_verify_witness :
    hal_flash_write true [zeroDev] 0 0x8000 (fun _ => 0xff) 16 =
      ⟨.fatal, true⟩ :=
  (c9_write_verify true [zeroDev] 0 0x8000 16 (fun _ => 0xff) zeroDev rfl
    (by decide) (by decide) rfl).1 rfl ⟨0, by decide, by decide⟩
